import Mathlib

/-!
Verification of the RbbBot SNS fetch/cache/chunk pipeline.

Shallow embedding of the relevant parts of the repository:
  * `rbb_bot/utils/helpers.py`   (`chunker`, `truncate`)
  * `rbb_bot/utils/sns.py`       (`PostData`, `FetchResult`, `InstagramFetcher.fetch`,
                                  `Fetcher.find_urls`, `Sns.download_files`, `Sns.fetch`,
                                  `Sns.format_post`, `SnsMessage`)
  * `rbb_bot/models/cache.py`    (`DiskCache`)
  * `rbb_bot/cogs/sns_cog.py`    (`SnsCog.sns_cmd`)

Machine integers are modelled as `Nat` (Python ints are unbounded; where Python
arithmetic can go negative, `Int` is used).  Python strings are Lean `String`s,
byte blobs are modelled by their byte size (`Nat`): the pipeline never inspects
the downloaded bytes, only their length, writes them to disk or hands them on.
Network and subprocess calls are modelled as oracle parameters (total functions
or explicit outcome values): a run of the Python code corresponds to one choice
of oracle.  Python exceptions are modelled with `Except`/`Option`.
-/

set_option maxRecDepth 4000

deriving instance DecidableEq for Except

namespace RbbBot

/-- Models `settings/const.py`: `DISCORD_MAX_MESSAGE = 2000`. -/
def DISCORD_MAX_MESSAGE : Nat := 2000

/-- Models `settings/const.py`: `DISCORD_MAX_FILE_SIZE = 8 * 1024 * 1024`. -/
def DISCORD_MAX_FILE_SIZE : Nat := 8 * 1024 * 1024

/-- Models `models/cache.py`: `DiskCache.MAX_SIZE = 512`. -/
def DISK_CACHE_MAX_SIZE : Nat := 512

/-!  ## `helpers.chunker`

Source (`rbb_bot/utils/helpers.py`, lines 63-80):

```
def chunker(seq, size, max_len_per_chunk=None):
    chunk = []
    chunk_len = 0
    for item in seq:
        if max_len_per_chunk and chunk_len + len(str(item)) > max_len_per_chunk:
            if not chunk:
                raise ValueError("max_len_per_chunk is too small")
            yield chunk
            chunk = []
            chunk_len = 0
        chunk.append(item)
        chunk_len += len(str(item))
        if len(chunk) == size:
            yield chunk
            chunk = []
            chunk_len = 0
    if chunk:
        yield chunk
```

The pipeline only ever feeds it strings (`post_data.urls`), so items are
`String` and `len(str(item))` is `String.length`.  The generator is forced
whole by its callers (`list(chunker(...))`), so it is modelled as a function
returning all chunks, or an error for `raise ValueError`. -/

/-- Python truthiness of the `max_len_per_chunk` argument
(`None` and `0` are falsy). -/
def maxLenTruthy : Option Nat → Bool
  | none => false
  | some b => b ≠ 0

/-- The `if max_len_per_chunk and chunk_len + len(str(item)) > max_len_per_chunk`
test. -/
def chunkerOver (maxLen? : Option Nat) (chunkLen itemLen : Nat) : Bool :=
  maxLenTruthy maxLen? && decide (chunkLen + itemLen > maxLen?.getD 0)

/-- The loop of `chunker`, with the generator state (`chunk`, `chunk_len`)
made explicit. -/
def chunkerGo (maxLen? : Option Nat) (size : Nat) :
    List String → List String → Nat → Except Unit (List (List String))
  | [], chunk, _ => .ok (if chunk.isEmpty then [] else [chunk])
  | item :: rest, chunk, chunkLen =>
    let over := chunkerOver maxLen? chunkLen item.length
    if over ∧ chunk = [] then .error ()
    else
      let flushed := if over then [chunk] else []
      let chunk1 := (if over then [] else chunk) ++ [item]
      let len1 := (if over then 0 else chunkLen) + item.length
      if chunk1.length = size then
        (chunkerGo maxLen? size rest [] 0).map (fun cs => flushed ++ chunk1 :: cs)
      else
        (chunkerGo maxLen? size rest chunk1 len1).map (fun cs => flushed ++ cs)

/-- Models `helpers.chunker(seq, size, max_len_per_chunk)`. -/
def chunker (seq : List String) (size : Nat) (maxLen? : Option Nat) :
    Except Unit (List (List String)) :=
  chunkerGo maxLen? size seq [] 0

/-- Sum of the string lengths of a chunk (the running `chunk_len`). -/
def chunkLenOf (chunk : List String) : Nat :=
  (chunk.map String.length).sum

/-!  ## Data model: `PostData` and its serialization

`sns.py` stores `created_at` as a naive Python `datetime`, serialized with
`datetime.strftime(dt, "%Y-%m-%d %H:%M:%S.%f")` and parsed back with
`datetime.strptime` on the same format.  A naive datetime is modelled by its
seven fields. -/

structure DateTime where
  year : Nat
  month : Nat
  day : Nat
  hour : Nat
  minute : Nat
  second : Nat
  microsecond : Nat
deriving DecidableEq

/-- The ranges a Python `datetime` object guarantees for its fields
(`MINYEAR = 1`, `MAXYEAR = 9999`, etc.). -/
def DateTime.Valid (d : DateTime) : Prop :=
  1 ≤ d.year ∧ d.year ≤ 9999 ∧ 1 ≤ d.month ∧ d.month ≤ 12 ∧
  1 ≤ d.day ∧ d.day ≤ 31 ∧ d.hour ≤ 23 ∧ d.minute ≤ 59 ∧
  d.second ≤ 59 ∧ d.microsecond ≤ 999999

instance (d : DateTime) : Decidable d.Valid := by
  unfold DateTime.Valid; infer_instance

/-- The ASCII character of a decimal digit (codepoint 48 + d). -/
def digitChar (d : Nat) : Char := Char.ofNat (48 + d)

/-- The decimal digit of an ASCII character, if it is one. -/
def charDigit? (c : Char) : Option Nat :=
  if '0' ≤ c ∧ c ≤ '9' then some (c.toNat - 48) else none

/-- Little-endian decimal digits of `n`, with explicit fuel so that the
definition reduces in the kernel (`natDigits` below supplies enough fuel;
it agrees with Mathlib's `Nat.digits 10`, proved in the theorems section). -/
def natDigitsRev (fuel n : Nat) : List Nat :=
  match fuel with
  | 0 => []
  | fuel + 1 => if n = 0 then [] else n % 10 :: natDigitsRev fuel (n / 10)

def natDigits (n : Nat) : List Nat := natDigitsRev n n

/-- Decimal digits of `n`, most significant first, zero-padded on the left to
width `w` (the behaviour of `strftime`'s `%Y`/`%m`/.../`%f` directives). -/
def padDigits (w n : Nat) : List Nat :=
  let ds := (natDigits n).reverse
  List.replicate (w - ds.length) 0 ++ ds

def renderNum (w n : Nat) : List Char := (padDigits w n).map digitChar

/-- Value of a big-endian decimal digit list. -/
def readKernel (ds : List Nat) : Nat := ds.foldl (fun a d => a * 10 + d) 0

def readNum? (cs : List Char) : Option Nat := (cs.mapM charDigit?).map readKernel

/-- Models `datetime.strftime(d, "%Y-%m-%d %H:%M:%S.%f")` as a character list. -/
def formatDtChars (d : DateTime) : List Char :=
  renderNum 4 d.year ++ '-' :: renderNum 2 d.month ++ '-' :: renderNum 2 d.day ++
  ' ' :: renderNum 2 d.hour ++ ':' :: renderNum 2 d.minute ++ ':' :: renderNum 2 d.second ++
  '.' :: renderNum 6 d.microsecond

def formatDt (d : DateTime) : String := ⟨formatDtChars d⟩

/-- Read a `w`-character decimal field followed by the separator `sep`;
return the value and the remaining characters. -/
def chopNum (w : Nat) (sep : Char) (cs : List Char) : Option (Nat × List Char) := do
  let n ← readNum? (cs.take w)
  match cs.drop w with
  | c :: rest => if c = sep then some (n, rest) else none
  | [] => none

/-- Read a final `w`-character decimal field (nothing may follow it). -/
def chopLast (w : Nat) (cs : List Char) : Option Nat :=
  if cs.length = w then readNum? cs else none

/-- Models `datetime.strptime(s, "%Y-%m-%d %H:%M:%S.%f")`, modelled on the
fixed-width zero-padded strings that `strftime` produces for this format
(the only strings `PostData.from_dict` is fed by the cache, which stores
`as_dict` output). -/
def parseDt (s : String) : Option DateTime := do
  let (y, r1) ← chopNum 4 '-' s.data
  let (mo, r2) ← chopNum 2 '-' r1
  let (dy, r3) ← chopNum 2 ' ' r2
  let (h, r4) ← chopNum 2 ':' r3
  let (mi, r5) ← chopNum 2 ':' r4
  let (sec, r6) ← chopNum 2 '.' r5
  let us ← chopLast 6 r6
  some ⟨y, mo, dy, h, mi, sec, us⟩

/-- Models `sns.py` `PostMedia`: a filename and a `BytesIO` blob.  The pipeline never
inspects the blob except for its byte count, so the bytes are modelled by
their size. -/
structure PostMedia where
  filename : String
  byteSize : Nat
deriving DecidableEq

/-- Models `sns.py` `PostData` (dataclass, lines 47-132). -/
structure PostData where
  source_url : String
  poster : Option String := none
  created_at : Option DateTime := none
  text : String := ""
  urls : List String := []
  chunked_file_paths : List (List String) := []
  chunked_media : List (List PostMedia) := []
deriving DecidableEq

/-- Models `PostData.is_empty` property. -/
def PostData.isEmptyPost (p : PostData) : Bool :=
  p.urls.isEmpty && p.chunked_file_paths.isEmpty && p.chunked_media.isEmpty &&
    (p.text = "")

/-- The dict produced by `PostData.as_dict` (the `DiskCache.value` JSON).
`chunked_media` is deliberately absent: posts with media are not cached. -/
structure PostDict where
  source_url : String
  poster : Option String
  created_at : Option String
  text : String
  urls : List String
  chunked_file_paths : List (List String)
deriving DecidableEq

/-- Models `PostData.as_dict` (sns.py lines 83-96).  `self.created_at` is a datetime
or `None`; a datetime object is always truthy. -/
def PostData.as_dict (p : PostData) : PostDict :=
  { source_url := p.source_url
    poster := p.poster
    created_at := p.created_at.map formatDt
    text := p.text
    urls := p.urls
    chunked_file_paths := p.chunked_file_paths }

/-- Python truthiness of `data["created_at"]` in `from_dict`
(`None` and `""` are falsy). -/
def createdAtTruthy : Option String → Bool
  | none => false
  | some s => s ≠ ""

/-- Models `PostData.from_dict` (sns.py lines 119-132).  `strptime` can raise on a
malformed string, hence `Option`. -/
def PostData.from_dict (d : PostDict) : Option PostData :=
  if createdAtTruthy d.created_at then
    (parseDt (d.created_at.getD "")).map fun dt =>
      { source_url := d.source_url, poster := d.poster, created_at := some dt,
        text := d.text, urls := d.urls, chunked_file_paths := d.chunked_file_paths }
  else
    some { source_url := d.source_url, poster := d.poster, created_at := none,
           text := d.text, urls := d.urls, chunked_file_paths := d.chunked_file_paths }

/-- Models `sns.py` `FetchResult`: `post_data`, `exception`, `error_message`
(and nothing else — in particular no `is_empty` attribute). -/
structure FetchResult where
  post_data : Option PostData := none
  exception : Option String := none
  error_message : Option String := none
deriving DecidableEq

/-- Models `sns.py` `SnsMessage` (dataclass): first positional field is `content`. -/
structure SnsMessage where
  content : String
  url_str : String := ""
  file_paths : List String := []
  media : List PostMedia := []
deriving DecidableEq

/-!  ## `Fetcher.find_urls` (sns.py lines 228-239)

```
def find_urls(self, text: str) -> list[str]:
    long_matches = self.url_pat.finditer(text)
    found_urls = list()
    for match in long_matches:
        if (url := match.group(0).split("?")[0]) not in found_urls:
            found_urls.append(url)
    for short_pat in self.short_pats:
        short_matches = short_pat.finditer(text)
        for match in short_matches:
            if (url := match.group(0).split("?")[0]) not in found_urls:
                found_urls.append(url)
    return found_urls
```

The regex engine is modelled as an oracle: for each pattern, the list of its
matches in the text, in increasing match-position order (which is how
`finditer` yields them).  A match is its start position and matched text. -/

structure UrlMatch where
  pos : Nat
  str : String
deriving DecidableEq

/-- Models `match.group(0).split("?")[0]`: the match text up to the first `?`
(Python's split on `"?"` and taking the first piece). -/
def stripQuery (s : String) : String := ⟨s.data.takeWhile fun c => c ≠ '?'⟩

/-- Models `if url not in found_urls: found_urls.append(url)`. -/
def addUrl (acc : List String) (u : String) : List String :=
  if u ∈ acc then acc else acc ++ [u]

/-- Models `Fetcher.find_urls`, given the matches of `url_pat` and of each pattern in
`short_pats` (each list in text order). -/
def findUrls (longMatches : List UrlMatch) (shortMatches : List (List UrlMatch)) :
    List String :=
  let found := longMatches.foldl (fun acc m => addUrl acc (stripQuery m.str)) []
  shortMatches.foldl
    (fun acc ms => ms.foldl (fun acc m => addUrl acc (stripQuery m.str)) acc) found

/-- First-occurrence deduplication (keeps the first copy of each element,
preserving order). -/
def dedupFirstAux (seen : List String) : List String → List String
  | [] => []
  | x :: xs =>
    if x ∈ seen then dedupFirstAux seen xs
    else x :: dedupFirstAux (seen ++ [x]) xs

def dedupFirst (l : List String) : List String := dedupFirstAux [] l

/-- Insertion sort of matches by text position (used only to state the
spec's ordering requirement). -/
def insertByPos (m : UrlMatch) : List UrlMatch → List UrlMatch
  | [] => [m]
  | x :: xs => if m.pos ≤ x.pos then m :: x :: xs else x :: insertByPos m xs

def sortByPos (ms : List UrlMatch) : List UrlMatch := ms.foldr insertByPos []

/-- Modelled from the spec (C5): the return value `find_urls` would have if
its output were "ordered by first appearance in the text": all matches of all
patterns merged in text order, query-stripped, first-occurrence-deduplicated.
Defined from the spec's words for comparison against `findUrls`. -/
def specFirstAppearanceUrls (longMatches : List UrlMatch)
    (shortMatches : List (List UrlMatch)) : List String :=
  dedupFirst ((sortByPos (longMatches ++ shortMatches.flatten)).map fun m => stripQuery m.str)

/-!  ## `InstagramFetcher` (sns.py lines 451-551)

C4 concerns the sticky `disabled` flag.  One call of
`InstagramFetcher.fetch` is driven by the platform's response, modelled as an
oracle value; the parsing of a successful response body (lines 520-551) is
abstracted as the `PostData` it produces, since no claim depends on it. -/

inductive IgResponse where
  /-- Models `response.json()` raised `aiohttp.ContentTypeError`. -/
  | contentTypeError
  /-- Models `data.get("message") == "checkpoint_required"`. -/
  | checkpointRequired
  /-- Models `"spam" in data`. -/
  | spam
  /-- Models `"items" not in data`. -/
  | noItems
  /-- Models `data["items"][0]` present; parsed into the given `PostData`. -/
  | items (post : PostData)
  /-- Models `self.web_client.get(...)` raised `aiohttp.TooManyRedirects`. -/
  | tooManyRedirects
deriving DecidableEq

/-- Models `self.disabled_msg` set in `InstagramFetcher.__init__`. -/
def igDisabledMsg : String :=
  "Instagram currently not working. Bot owner has been notified"

/-- Outcome of one `InstagramFetcher.fetch` call: the new `disabled` state,
the returned `FetchResult`, and whether a network request was made. -/
structure IgStep where
  disabled : Bool
  result : FetchResult
  madeRequest : Bool
deriving DecidableEq

/-- One call of `InstagramFetcher.fetch` from a given `disabled` state,
observing `resp` if a request is made. -/
def igFetch (disabled : Bool) (resp : IgResponse) : IgStep :=
  if disabled then ⟨true, { error_message := some igDisabledMsg }, false⟩
  else
    match resp with
    | .contentTypeError =>
      ⟨false, { error_message := some "Failed to fetch instagram post." }, true⟩
    | .checkpointRequired => ⟨true, { error_message := some igDisabledMsg }, true⟩
    | .spam => ⟨false, { error_message := some "Instagram post not found" }, true⟩
    | .noItems => ⟨false, { error_message := some "Instagram post not found" }, true⟩
    | .items pd => ⟨false, { post_data := some pd }, true⟩
    | .tooManyRedirects => ⟨true, { error_message := some igDisabledMsg }, true⟩

/-- Models `disabled` state after a sequence of fetches on one instance. -/
def igRunState (d : Bool) (resps : List IgResponse) : Bool :=
  resps.foldl (fun d r => (igFetch d r).disabled) d

/-- The outcomes of a sequence of fetches on one instance. -/
def igTrace (d : Bool) : List IgResponse → List IgStep
  | [] => []
  | r :: rs => let s := igFetch d r; s :: igTrace s.disabled rs

/-!  ## `Sns.download_files` (sns.py lines 867-954)

Network downloads are modelled by an oracle `DownloadEnv`: `fetchSize url` is
the byte size `http_get` returns for `url` (the run modelled is one where all
attempted downloads succeed), and `filenameOf url` is
`self.fetcher.url_to_filename(url)`, `none` when that call raises (the
`try/except` at lines 897-903 then skips the url).  `DISCORD_MAX_FILE_SIZE`
and `MAX_ATTACHMENTS` are the byte and item budgets; `MAX_ATTACHMENTS` is
imported in `sns.py` from `settings.const` but its definition is not part of
the sources, so both budgets stay parameters `B` and `N`. -/

structure DownloadEnv where
  fetchSize : String → Nat
  filenameOf : String → Option String

/-- Models `Sns.is_downloadable` (sns.py lines 956-961). -/
def is_downloadable (url : String) : Bool :=
  !(url.startsWith "https://i.imgur" || url.startsWith "https://imgur")

/-- Models `Path(FilePaths.CACHE_DIR, filename)`, with the cache directory rendered
as a fixed prefix. -/
def cachePath (filename : String) : String := "media_cache/" ++ filename

/-- The loop state of `download_files` (lines 883-891). -/
structure DFState where
  undownloadable : List String := []
  bytesAndPaths : List (Nat × String) := []
  chunkedMedia : List (List PostMedia) := []
  mediaChunk : List PostMedia := []
  chunkedFilePaths : List (List String) := []
  fileChunk : List String := []
  chunkSize : Nat := 0
  attNum : Nat := 0
deriving DecidableEq

/-- One iteration of the `for url in post_data.urls` loop (lines 893-928). -/
def dfStep (env : DownloadEnv) (B N : Nat) (s : DFState) (url : String) : DFState :=
  if !is_downloadable url then
    { s with undownloadable := s.undownloadable ++ [url] }
  else
    match env.filenameOf url with
    | none => s
    | some filename =>
      let fsize := env.fetchSize url
      if fsize > B then { s with undownloadable := s.undownloadable ++ [url] }
      else
        let filePath := cachePath filename
        let s := { s with
                   bytesAndPaths := s.bytesAndPaths ++ [(fsize, filePath)],
                   attNum := s.attNum + 1 }
        if fsize + s.chunkSize > B ∨ s.attNum ≥ N then
          { s with
            chunkedFilePaths := s.chunkedFilePaths ++ [s.fileChunk],
            chunkedMedia := s.chunkedMedia ++ [s.mediaChunk],
            fileChunk := [filePath],
            mediaChunk := [⟨filename, fsize⟩],
            chunkSize := fsize,
            attNum := 0 }
        else
          { s with
            chunkSize := s.chunkSize + fsize,
            fileChunk := s.fileChunk ++ [filePath],
            mediaChunk := s.mediaChunk ++ [⟨filename, fsize⟩] }

/-- Models `if file_chunk or media_chunk:` flush of the trailing chunk
(lines 930-932). -/
def dfFlush (s : DFState) : DFState :=
  if s.fileChunk ≠ [] ∨ s.mediaChunk ≠ [] then
    { s with
      chunkedFilePaths := s.chunkedFilePaths ++ [s.fileChunk],
      chunkedMedia := s.chunkedMedia ++ [s.mediaChunk] }
  else s

/-- Models `Sns.download_files(post_data, timestamped_urls)`.  Returns the new
`PostData` and the list of file paths written to disk (lines 946-949), in
write order. -/
def downloadFiles (env : DownloadEnv) (B N : Nat) (post : PostData)
    (timestamped_urls : Bool) : PostData × List String :=
  let s := dfFlush (post.urls.foldl (dfStep env B N) {})
  let newData : PostData :=
    { source_url := post.source_url
      poster := post.poster
      created_at := post.created_at
      text := post.text
      urls := s.undownloadable }
  if timestamped_urls ∧ s.undownloadable ≠ [] then
    ({ newData with chunked_media := s.chunkedMedia }, [])
  else
    ({ newData with
       chunked_file_paths := s.chunkedFilePaths ++ post.chunked_file_paths },
     s.bytesAndPaths.map Prod.snd)

/-- Whether `download_files` leaves `u` undownloaded and keeps it in the
returned `urls` (skip-listed domain, or byte size over the budget `B`).
A url whose filename derivation fails is skipped silently instead. -/
def undownloadFlag (env : DownloadEnv) (B : Nat) (u : String) : Bool :=
  if !is_downloadable u then true
  else
    match env.filenameOf u with
    | none => false
    | some _ => env.fetchSize u > B

/-- The urls of `post.urls` that `download_files` leaves undownloaded. -/
def undownloadedOf (env : DownloadEnv) (B : Nat) (urls : List String) : List String :=
  urls.filter (undownloadFlag env B)

/-- The media item `download_files` downloads for `u`, if any: downloadable
domain, filename derivable, byte size within `B`. -/
def downloadItem? (env : DownloadEnv) (B : Nat) (u : String) : Option PostMedia :=
  if !is_downloadable u then none
  else
    match env.filenameOf u with
    | none => none
    | some filename =>
      if env.fetchSize u > B then none else some ⟨filename, env.fetchSize u⟩

/-- The media items `download_files` downloads and chunks, in url order. -/
def downloadedOf (env : DownloadEnv) (B : Nat) (urls : List String) : List PostMedia :=
  urls.filterMap (downloadItem? env B)

/-- Total byte size of a media chunk. -/
def sumBytes (c : List PostMedia) : Nat := (c.map PostMedia.byteSize).sum

/-- The disk paths of a media chunk. -/
def mediaPaths (c : List PostMedia) : List String :=
  c.map fun m => cachePath m.filename

/-- Loop invariant of `download_files` after processing the url prefix
`done` (stated for an item budget `N ≥ 1`). -/
structure DFInv (env : DownloadEnv) (B N : Nat) (done : List String)
    (s : DFState) : Prop where
  size_eq : s.chunkSize = sumBytes s.mediaChunk
  size_le : s.chunkSize ≤ B
  files_eq : s.fileChunk = mediaPaths s.mediaChunk
  att_lt : s.attNum < N
  chunk_len : s.mediaChunk.length ≤ s.attNum + 1
  closed_ok : ∀ c ∈ s.chunkedMedia, sumBytes c ≤ B ∧ c.length ≤ N
  closed_files : s.chunkedFilePaths = s.chunkedMedia.map mediaPaths
  joined : s.chunkedMedia.flatten ++ s.mediaChunk = downloadedOf env B done
  writes : s.bytesAndPaths =
    (downloadedOf env B done).map fun m => (m.byteSize, cachePath m.filename)
  undl : s.undownloadable = undownloadedOf env B done

/-!  ## `DiskCache` and the caching part of `Sns.fetch`

`models/cache.py`: rows `{key, value, accessed_at}` with `MAX_SIZE = 512`.
`accessed_at` timestamps are modelled as `Nat`.  The eviction in
`Sns.fetch` (sns.py lines 1006-1015) also unlinks the evicted entry's files;
file deletion is outside the claims and not tracked. -/

structure CacheEntry where
  key : String
  value : PostDict
  accessedAt : Nat
deriving DecidableEq

/-- Models `DiskCache.get_or_none(key=...)`: the row with the given key
(`key` is unique). -/
def cacheGet (cache : List CacheEntry) (key : String) : Option CacheEntry :=
  cache.find? fun e => e.key = key

/-- Refresh `accessed_at` of the row with the given key
(sns.py lines 981-982). -/
def cacheTouch (cache : List CacheEntry) (key : String) (now : Nat) :
    List CacheEntry :=
  cache.map fun e => if e.key = key then { e with accessedAt := now } else e

/-- Models `DiskCache.all().order_by("accessed_at").first()`: a row with the
smallest `accessed_at` (first such row in table order). -/
def cacheOldest (cache : List CacheEntry) : Option CacheEntry :=
  cache.foldl
    (fun best e =>
      match best with
      | none => some e
      | some b => if e.accessedAt < b.accessedAt then some e else some b)
    none

/-- The insertion performed by the `Sns.fetch` cache-miss path
(lines 1006-1015): `DiskCache.create`, then, if the row count exceeds
`MAX_SIZE`, delete the oldest row. -/
def cachePut (maxSize : Nat) (cache : List CacheEntry) (e : CacheEntry) :
    List CacheEntry :=
  let c2 := cache ++ [e]
  if c2.length > maxSize then
    match cacheOldest c2 with
    | some old => c2.erase old
    | none => c2
  else c2

/-- The entry `cachePut` evicts, if any. -/
def cachePutEvicted (maxSize : Nat) (cache : List CacheEntry) (e : CacheEntry) :
    Option CacheEntry :=
  if (cache ++ [e]).length > maxSize then cacheOldest (cache ++ [e]) else none

/-- Models `Sns.__init__` configuration: `cache_files`, `timestamped_urls`. -/
structure SnsCfg where
  cache_files : Bool
  timestamped_urls : Bool

/-- Models `Sns.fetch(source_url)` (sns.py lines 963-1020).  `fetchOutcome` is the
oracle for `self.fetcher.fetch(source_url)`; `now` is `datetime.utcnow()`.
Returns the `FetchResult`, the new cache table and the disk writes, or `none`
when `PostData.from_dict` raises on a cache hit. -/
def snsFetch (cfg : SnsCfg) (env : DownloadEnv) (B N : Nat)
    (fetchOutcome : FetchResult) (cache : List CacheEntry)
    (source_url : String) (now : Nat) :
    Option (FetchResult × List CacheEntry × List String) :=
  if !cfg.cache_files then some (fetchOutcome, cache, [])
  else
    match cacheGet cache source_url with
    | some saved =>
      (PostData.from_dict saved.value).map fun pd =>
        ({ post_data := some pd }, cacheTouch cache source_url now, [])
    | none =>
      match fetchOutcome.post_data with
      | none => some (fetchOutcome, cache, [])
      | some pd =>
        let dl := downloadFiles env B N pd cfg.timestamped_urls
        let pd2 := dl.1
        let skipCache :=
          cfg.timestamped_urls ∧ (pd2.chunked_media ≠ [] ∨ pd2.urls ≠ [])
        if skipCache then
          some ({ fetchOutcome with post_data := some pd2 }, cache, dl.2)
        else
          some ({ fetchOutcome with post_data := some pd2 },
                cachePut DISK_CACHE_MAX_SIZE cache ⟨source_url, pd2.as_dict, now⟩,
                dl.2)

/-!  ## `Sns.format_post` (sns.py lines 1022-1069) and `helpers.truncate`

`format_dt` (discord.py's timestamp markup, whose value depends on the local
timezone) is an external collaborator and stays a parameter `fmtDt`. -/

/-- Python string slice `s[:k]` with a possibly negative `k`. -/
def pyStrTake (s : String) (k : Int) : String :=
  if k ≥ 0 then ⟨s.data.take k.toNat⟩
  else ⟨s.data.take (s.length - min s.length (-k).toNat)⟩

/-- Models `helpers.truncate(string, max_length)` (helpers.py lines 58-60):
`f"{string[: max_length - 4]} ..." if len(string) > max_length else string`.
`max_length` may go negative in the `format_post` call site, hence `Int`. -/
def truncate (s : String) (maxLength : Int) : String :=
  if (s.length : Int) > maxLength then pyStrTake s (maxLength - 4) ++ " ..." else s

/-- Replace every maximal run of two or more `isRun`-characters by the single
character `repl` (the effect of `re.sub(x{2,}, repl, text)`): groups of
adjacent characters are maximal runs, and any group of length ≥ 2 consists of
`isRun`-characters. -/
def collapseRuns (isRun : Char → Bool) (repl : Char) (cs : List Char) : List Char :=
  ((cs.splitBy fun a b => isRun a && isRun b).map
    fun g => if 2 ≤ g.length then [repl] else g).flatten

/-- Models `re.sub(r"\n{2,}", "\n", text)`. -/
def reSubNewlines (s : String) : String :=
  ⟨collapseRuns (fun c => c = '\n') '\n' s.data⟩

/-- Python regex `\s` on ASCII text. -/
def isPySpace (c : Char) : Bool :=
  c = ' ' || c = '\t' || c = '\n' || c = '\r' || c = '\x0b' || c = '\x0c'

/-- Models `re.sub(r"\s{2,}", " ", text)`. -/
def reSubSpaces (s : String) : String :=
  ⟨collapseRuns isPySpace ' ' s.data⟩

/-- Python truthiness of a string. -/
def pyStrTruthy (s : String) : Bool := s ≠ ""

/-- Truthiness of `post_data.poster` (`None` or empty string falsy). -/
def posterTruthy : Option String → Bool
  | none => false
  | some s => s ≠ ""

/-- The caption text built by `format_post` when `with_text` is set
(lines 1027-1037). -/
def buildText (fmtDt : DateTime → String) (p : PostData) : String :=
  let t := if posterTruthy p.poster then "`" ++ p.poster.getD "" ++ "` posted " else ""
  let t := match p.created_at with
    | some d => t ++ "at " ++ fmtDt d
    | none => t
  let t := if pyStrTruthy p.text then t ++ "\n" ++ p.text else t
  let t := t ++ "\n"
  reSubSpaces (reSubNewlines t)

/-- Models `"\n".join(chunk)`. -/
def joinNl (c : List String) : String := String.intercalate "\n" c

/-- Models `Sns.format_post(post_data, with_text)`.  Besides the message list it
returns the `PostData` as the call leaves it: the source pops the first
chunk off `post_data.chunked_file_paths` / `post_data.chunked_media` in place
(lines 1050-1054) when the first message carries no url text.  An error is
the `ValueError` escaping from `list(chunker(...))` (line 1042). -/
def formatPost (fmtDt : DateTime → String) (p : PostData) (with_text : Bool) :
    Except Unit (List SnsMessage × PostData) :=
  let text := if with_text then buildText fmtDt p else ""
  match chunker p.urls 5 (some DISCORD_MAX_MESSAGE) with
  | .error e => .error e
  | .ok chunkedUrls0 =>
    let url_str := match chunkedUrls0 with
      | [] => ""
      | c :: _ => joinNl c
    let chunkedUrls := chunkedUrls0.tail
    let text :=
      if text.length + url_str.length > DISCORD_MAX_MESSAGE then
        truncate text ((DISCORD_MAX_MESSAGE : Int) - url_str.length - 5)
      else text
    let popFiles := url_str = ""
    let firstFp := if popFiles then p.chunked_file_paths.headD [] else []
    let cfp := if popFiles then p.chunked_file_paths.tail else p.chunked_file_paths
    let firstMed := if popFiles then p.chunked_media.headD [] else []
    let cm := if popFiles then p.chunked_media.tail else p.chunked_media
    let firstMessage : SnsMessage := ⟨text, url_str, firstFp, firstMed⟩
    let messages := firstMessage ::
      ((chunkedUrls.map fun c => ⟨joinNl c, "", [], []⟩) ++
       (cfp.map fun c => ⟨"", "", c, []⟩) ++
       (cm.map fun c => ⟨"", "", [], c⟩) : List SnsMessage)
    let messages := messages.filter fun m =>
      pyStrTruthy m.content || !m.file_paths.isEmpty || !m.media.isEmpty ||
        pyStrTruthy m.url_str
    .ok (messages, { p with chunked_file_paths := cfp, chunked_media := cm })

/-!  ## `SnsCog.sns_cmd` (sns_cog.py lines 97-123)

```
for url in found_urls:
    post_data = await sns.fetch(url)
    if not post_data or post_data.is_empty:
        error_messages.append(self.not_found_message(sns_name, url))
        continue
    messages.extend(sns.format_post(post_data, with_text=with_text))
```

`sns.fetch` returns a `FetchResult`, so `post_data` here is a `FetchResult`:
a plain object (no `__bool__`/`__len__`), hence always truthy, and one with
no `is_empty` attribute, so evaluating `post_data.is_empty` raises
`AttributeError`.  `fmt` is the oracle for the `format_post` call on the
(never reached) success path. -/

structure PyAttrError where
  attr : String
deriving DecidableEq

/-- Python truthiness of a `FetchResult` instance: always `true`. -/
def fetchResultTruthy (_ : FetchResult) : Bool := true

/-- Evaluation of `not post_data or post_data.is_empty` on a `FetchResult`. -/
def snsCmdCheck (r : FetchResult) : Except PyAttrError Bool :=
  if !fetchResultTruthy r then .ok true else .error ⟨"is_empty"⟩

/-- The per-url loop of `sns_cmd`, accumulating `messages` and
`error_messages`; an `AttributeError` escaping the loop aborts the whole
command. -/
def snsCmdLoop (notFound : String) (fmt : FetchResult → List SnsMessage) :
    List FetchResult → List SnsMessage → List String →
    Except PyAttrError (List SnsMessage × List String)
  | [], msgs, errs => .ok (msgs, errs)
  | r :: rest, msgs, errs =>
    match snsCmdCheck r with
    | .error e => .error e
    | .ok true => snsCmdLoop notFound fmt rest msgs (errs ++ [notFound])
    | .ok false => snsCmdLoop notFound fmt rest (msgs ++ fmt r) errs

/-- Processing of one platform's url batch by `sns_cmd`, given the fetch
outcomes of the urls in order. -/
def snsCmdProcess (notFound : String) (fmt : FetchResult → List SnsMessage)
    (results : List FetchResult) :
    Except PyAttrError (List SnsMessage × List String) :=
  snsCmdLoop notFound fmt results [] []

/-!  # Theorems -/

@[simp] lemma chunkLenOf_nil : chunkLenOf [] = 0 := rfl

@[simp] lemma chunkLenOf_append (c : List String) (i : String) :
    chunkLenOf (c ++ [i]) = chunkLenOf c + i.length := by
  simp [chunkLenOf]

@[simp] lemma chunkLenOf_singleton (i : String) :
    chunkLenOf [i] = i.length := by
  simp [chunkLenOf]

/-- Core behaviour of the `chunker` loop when every item fits into the length
budget: no `ValueError`, both per-chunk bounds hold, and the chunks
concatenate to the pending chunk followed by the remaining input. -/
lemma chunkerGo_ok (B size : Nat) (hsize : 1 ≤ size) :
    ∀ (seq chunk : List String) (chunkLen : Nat),
      chunkLen = chunkLenOf chunk → chunkLen ≤ B → chunk.length < size →
      (∀ x ∈ seq, x.length ≤ B) →
      ∃ cs, chunkerGo (some B) size seq chunk chunkLen = .ok cs ∧
        cs.flatten = chunk ++ seq ∧
        ∀ c ∈ cs, chunkLenOf c ≤ B ∧ c.length ≤ size := by
  intro seq
  induction seq with
  | nil =>
    intro chunk chunkLen hlen hB hsz _
    refine ⟨if chunk.isEmpty then [] else [chunk], rfl, ?_, ?_⟩
    · cases chunk <;> simp
    · intro c hc
      rcases chunk with _ | ⟨x, xs⟩
      · simp at hc
      · simp at hc
        subst hc
        exact ⟨hlen ▸ hB, Nat.le_of_lt hsz⟩
  | cons item rest ih =>
    intro chunk chunkLen hlen hB hsz hitems
    have hitem : item.length ≤ B := hitems item (List.mem_cons_self _ _)
    have hrest : ∀ x ∈ rest, x.length ≤ B := fun x hx =>
      hitems x (List.mem_cons_of_mem _ hx)
    by_cases hover : chunkerOver (some B) chunkLen item.length = true
    · -- over-length: the current chunk cannot be empty, so size ≥ 2
      have hover2 : ¬B = 0 ∧ B < chunkLen + item.length := by
        simpa [chunkerOver, maxLenTruthy] using hover
      have hchunk : chunk ≠ [] := by
        intro h
        rw [h] at hlen
        simp at hlen
        omega
      have hpos : 0 < chunk.length := List.length_pos.mpr hchunk
      have hone : ¬(1 : Nat) = size := by omega
      obtain ⟨cs, hcs, hflat, hbnd⟩ :=
        ih [item] item.length (by simp) hitem (by simp; omega) hrest
      refine ⟨chunk :: cs, ?_, ?_, ?_⟩
      · simp only [chunkerGo]
        simp [hover, hchunk, hone, hcs, Except.map]
      · simp [hflat]
      · intro c hc
        rw [List.mem_cons] at hc
        rcases hc with rfl | hc
        · exact ⟨hlen ▸ hB, Nat.le_of_lt hsz⟩
        · exact hbnd c hc
    · -- item fits into the current chunk
      have hfits : chunkLen + item.length ≤ B := by
        rcases Nat.eq_zero_or_pos B with hB0 | hBpos
        · omega
        · by_contra hgt
          apply hover
          simp only [chunkerOver, maxLenTruthy, Option.getD_some]
          simp only [Bool.and_eq_true, decide_eq_true_eq]
          omega
      by_cases hfull : chunk.length + 1 = size
      · -- the appended chunk reaches `size` and is emitted
        obtain ⟨cs, hcs, hflat, hbnd⟩ :=
          ih [] 0 (by simp) (Nat.zero_le _) (by simpa using hsize) hrest
        refine ⟨(chunk ++ [item]) :: cs, ?_, ?_, ?_⟩
        · simp only [chunkerGo]
          simp [hover, hfull, hcs, Except.map]
        · simp [hflat]
        · intro c hc
          rw [List.mem_cons] at hc
          rcases hc with rfl | hc
          · refine ⟨by simpa [hlen] using hfits, ?_⟩
            simp only [List.length_append, List.length_singleton]
            omega
          · exact hbnd c hc
      · -- the appended chunk stays below `size`
        obtain ⟨cs, hcs, hflat, hbnd⟩ :=
          ih (chunk ++ [item]) (chunkLen + item.length)
            (by simp [hlen])
            hfits
            (by simp only [List.length_append, List.length_singleton]; omega)
            hrest
        refine ⟨cs, ?_, ?_, hbnd⟩
        · simp only [chunkerGo]
          simp [hover, hfull, hcs, Except.map]
        · simp [hflat]

/-- Behaviour of `chunker` on inputs whose items all fit the budget. -/
lemma chunker_ok (seq : List String) (size B : Nat) (hsize : 1 ≤ size)
    (hitems : ∀ x ∈ seq, x.length ≤ B) :
    ∃ cs, chunker seq size (some B) = .ok cs ∧
      cs.flatten = seq ∧
      ∀ c ∈ cs, chunkLenOf c ≤ B ∧ c.length ≤ size :=
  chunkerGo_ok B size hsize seq [] 0 rfl (Nat.zero_le _) hsize hitems

@[simp] lemma sumBytes_nil : sumBytes [] = 0 := rfl

@[simp] lemma sumBytes_append (c : List PostMedia) (m : PostMedia) :
    sumBytes (c ++ [m]) = sumBytes c + m.byteSize := by
  simp [sumBytes]

@[simp] lemma sumBytes_singleton (m : PostMedia) :
    sumBytes [m] = m.byteSize := by
  simp [sumBytes]

@[simp] lemma mediaPaths_nil : mediaPaths [] = [] := rfl

@[simp] lemma mediaPaths_append (c : List PostMedia) (m : PostMedia) :
    mediaPaths (c ++ [m]) = mediaPaths c ++ [cachePath m.filename] := by
  simp [mediaPaths]

@[simp] lemma mediaPaths_singleton (m : PostMedia) :
    mediaPaths [m] = [cachePath m.filename] := rfl

lemma downloadedOf_append (env : DownloadEnv) (B : Nat) (done : List String)
    (u : String) :
    downloadedOf env B (done ++ [u]) =
      downloadedOf env B done ++ (downloadItem? env B u).toList := by
  simp only [downloadedOf, List.filterMap_append]
  cases h : downloadItem? env B u <;> simp [h]

lemma undownloadedOf_append (env : DownloadEnv) (B : Nat) (done : List String)
    (u : String) :
    undownloadedOf env B (done ++ [u]) =
      undownloadedOf env B done ++ if undownloadFlag env B u then [u] else [] := by
  simp only [undownloadedOf, List.filter_append]
  cases h : undownloadFlag env B u <;> simp [h]

/-- One url preserves the `download_files` loop invariant. -/
lemma dfStep_inv {env : DownloadEnv} {B N : Nat} {done : List String}
    {s : DFState} (hN : 0 < N) (h : DFInv env B N done s) (u : String) :
    DFInv env B N (done ++ [u]) (dfStep env B N s u) := by
  by_cases hdl : is_downloadable u
  · cases hfn : env.filenameOf u with
    | none =>
      -- filename derivation failed: url skipped entirely
      have hitem : downloadItem? env B u = none := by
        simp [downloadItem?, hdl, hfn]
      have hflag : undownloadFlag env B u = false := by
        simp [undownloadFlag, hdl, hfn]
      have hstep : dfStep env B N s u = s := by
        simp [dfStep, hdl, hfn]
      rw [hstep]
      refine { h with joined := ?_, writes := ?_, undl := ?_ }
      · rw [downloadedOf_append, hitem]
        simpa using h.joined
      · rw [downloadedOf_append, hitem]
        simpa using h.writes
      · rw [undownloadedOf_append, hflag]
        simpa using h.undl
    | some filename =>
      by_cases hsz : env.fetchSize u > B
      · -- oversized: kept in the undownloadable urls
        have hitem : downloadItem? env B u = none := by
          simp [downloadItem?, hdl, hfn, hsz]
        have hflag : undownloadFlag env B u = true := by
          simp [undownloadFlag, hdl, hfn, hsz]
        have hstep : dfStep env B N s u =
            { s with undownloadable := s.undownloadable ++ [u] } := by
          simp [dfStep, hdl, hfn, hsz]
        rw [hstep]
        refine { h with joined := ?_, writes := ?_, undl := ?_ }
        · rw [downloadedOf_append, hitem]
          simpa using h.joined
        · rw [downloadedOf_append, hitem]
          simpa using h.writes
        · rw [undownloadedOf_append, hflag]
          simp [h.undl]
      · -- downloaded
        have hitem : downloadItem? env B u = some ⟨filename, env.fetchSize u⟩ := by
          simp [downloadItem?, hdl, hfn, hsz]
        have hflag : undownloadFlag env B u = false := by
          simp [undownloadFlag, hdl, hfn, hsz]
        by_cases hclose : env.fetchSize u + s.chunkSize > B ∨ s.attNum + 1 ≥ N
        · -- the running chunk is closed, the item opens a fresh chunk
          have hstep : dfStep env B N s u =
              { s with
                bytesAndPaths :=
                  s.bytesAndPaths ++ [(env.fetchSize u, cachePath filename)],
                chunkedFilePaths := s.chunkedFilePaths ++ [s.fileChunk],
                chunkedMedia := s.chunkedMedia ++ [s.mediaChunk],
                fileChunk := [cachePath filename],
                mediaChunk := [⟨filename, env.fetchSize u⟩],
                chunkSize := env.fetchSize u,
                attNum := 0 } := by
            simp only [dfStep, hdl, hfn, hsz]
            simp [hclose]
          rw [hstep]
          refine ⟨?_, ?_, ?_, ?_, ?_, ?_, ?_, ?_, ?_, ?_⟩
          · simp
          · show env.fetchSize u ≤ B
            omega
          · simp
          · exact hN
          · simp
          · intro c hc
            simp only [List.mem_append, List.mem_singleton] at hc
            rcases hc with hc | rfl
            · exact h.closed_ok c hc
            · refine ⟨h.size_eq ▸ h.size_le, ?_⟩
              have := h.chunk_len
              have := h.att_lt
              omega
          · simp [h.closed_files, h.files_eq]
          · rw [downloadedOf_append, hitem]
            simp [← h.joined]
          · rw [downloadedOf_append, hitem]
            simp [h.writes]
          · rw [undownloadedOf_append, hflag]
            simp [h.undl]
        · -- the item joins the running chunk
          have hstep : dfStep env B N s u =
              { s with
                bytesAndPaths :=
                  s.bytesAndPaths ++ [(env.fetchSize u, cachePath filename)],
                chunkSize := s.chunkSize + env.fetchSize u,
                fileChunk := s.fileChunk ++ [cachePath filename],
                mediaChunk := s.mediaChunk ++ [⟨filename, env.fetchSize u⟩],
                attNum := s.attNum + 1 } := by
            simp only [dfStep, hdl, hfn, hsz]
            simp [hclose]
          rw [hstep]
          refine ⟨?_, ?_, ?_, ?_, ?_, ?_, ?_, ?_, ?_, ?_⟩
          · simp [h.size_eq]
          · show s.chunkSize + env.fetchSize u ≤ B
            omega
          · simp [h.files_eq]
          · show s.attNum + 1 < N
            omega
          · have := h.chunk_len
            simp
            omega
          · exact h.closed_ok
          · exact h.closed_files
          · rw [downloadedOf_append, hitem]
            simp [← h.joined]
          · rw [downloadedOf_append, hitem]
            simp [h.writes]
          · rw [undownloadedOf_append, hflag]
            simpa using h.undl
  · -- skip-listed domain
    have hitem : downloadItem? env B u = none := by
      simp [downloadItem?, hdl]
    have hflag : undownloadFlag env B u = true := by
      simp [undownloadFlag, hdl]
    have hstep : dfStep env B N s u =
        { s with undownloadable := s.undownloadable ++ [u] } := by
      simp [dfStep, hdl]
    rw [hstep]
    refine { h with joined := ?_, writes := ?_, undl := ?_ }
    · rw [downloadedOf_append, hitem]
      simpa using h.joined
    · rw [downloadedOf_append, hitem]
      simpa using h.writes
    · rw [undownloadedOf_append, hflag]
      simp [h.undl]

lemma dfInv_init (env : DownloadEnv) (B N : Nat) (hN : 0 < N) :
    DFInv env B N [] {} :=
  ⟨rfl, Nat.zero_le _, rfl, hN, by simp, by simp, rfl,
   by simp [downloadedOf], by simp [downloadedOf], by simp [undownloadedOf]⟩

lemma dfInv_run (env : DownloadEnv) (B N : Nat) (urls : List String)
    (hN : 0 < N) :
    DFInv env B N urls (urls.foldl (dfStep env B N) {}) := by
  suffices h : ∀ (todo done : List String) (s : DFState), DFInv env B N done s →
      DFInv env B N (done ++ todo) (todo.foldl (dfStep env B N) s) by
    simpa using h urls [] {} (dfInv_init env B N hN)
  intro todo
  induction todo with
  | nil =>
    intro done s h
    simpa using h
  | cons u rest ih =>
    intro done s h
    have := ih (done ++ [u]) _ (dfStep_inv hN h u)
    simpa using this

/-- After the trailing-chunk flush, the closed chunks carry everything that
was downloaded, within both budgets. -/
lemma dfFlush_inv {env : DownloadEnv} {B N : Nat} {urls : List String}
    {s : DFState} (h : DFInv env B N urls s) :
    (∀ c ∈ (dfFlush s).chunkedMedia, sumBytes c ≤ B ∧ c.length ≤ N) ∧
    (dfFlush s).chunkedFilePaths = (dfFlush s).chunkedMedia.map mediaPaths ∧
    (dfFlush s).chunkedMedia.flatten = downloadedOf env B urls ∧
    (dfFlush s).bytesAndPaths =
      (downloadedOf env B urls).map (fun m => (m.byteSize, cachePath m.filename)) ∧
    (dfFlush s).undownloadable = undownloadedOf env B urls := by
  by_cases hc : s.fileChunk ≠ [] ∨ s.mediaChunk ≠ []
  · have hflush : dfFlush s =
        { s with
          chunkedFilePaths := s.chunkedFilePaths ++ [s.fileChunk],
          chunkedMedia := s.chunkedMedia ++ [s.mediaChunk] } := by
      simp only [dfFlush]
      rw [if_pos hc]
    rw [hflush]
    refine ⟨?_, ?_, ?_, h.writes, h.undl⟩
    · intro c hcm
      simp only [List.mem_append, List.mem_singleton] at hcm
      rcases hcm with hcm | rfl
      · exact h.closed_ok c hcm
      · refine ⟨h.size_eq ▸ h.size_le, ?_⟩
        have h1 := h.chunk_len
        have h2 := h.att_lt
        omega
    · simp [h.closed_files, h.files_eq]
    · simp [← h.joined]
  · push_neg at hc
    have hflush : dfFlush s = s := by
      simp only [dfFlush]
      rw [if_neg]
      simp [hc.1, hc.2]
    rw [hflush]
    refine ⟨h.closed_ok, h.closed_files, ?_, h.writes, h.undl⟩
    have hj := h.joined
    rw [hc.2] at hj
    simpa using hj

/-- Full characterization of `download_files`: some chunk list within both
budgets concatenates to exactly the downloaded items; the timestamped branch
returns it as in-memory media with no disk write, otherwise it becomes the
file-path chunks and every downloaded blob is written. -/
lemma downloadFiles_spec (env : DownloadEnv) (B N : Nat) (post : PostData)
    (ts : Bool) (hN : 0 < N) :
    ∃ chunks : List (List PostMedia),
      (∀ c ∈ chunks, sumBytes c ≤ B ∧ c.length ≤ N) ∧
      chunks.flatten = downloadedOf env B post.urls ∧
      (downloadFiles env B N post ts).1.source_url = post.source_url ∧
      (downloadFiles env B N post ts).1.poster = post.poster ∧
      (downloadFiles env B N post ts).1.created_at = post.created_at ∧
      (downloadFiles env B N post ts).1.text = post.text ∧
      (downloadFiles env B N post ts).1.urls = undownloadedOf env B post.urls ∧
      (if ts ∧ undownloadedOf env B post.urls ≠ [] then
        (downloadFiles env B N post ts).1.chunked_media = chunks ∧
        (downloadFiles env B N post ts).1.chunked_file_paths = [] ∧
        (downloadFiles env B N post ts).2 = []
      else
        (downloadFiles env B N post ts).1.chunked_file_paths =
          chunks.map mediaPaths ++ post.chunked_file_paths ∧
        (downloadFiles env B N post ts).1.chunked_media = [] ∧
        (downloadFiles env B N post ts).2 =
          (downloadedOf env B post.urls).map fun m => cachePath m.filename) := by
  obtain ⟨hok, hfiles, hflat, hwrites, hundl⟩ :=
    dfFlush_inv (dfInv_run env B N post.urls hN)
  refine ⟨(dfFlush (post.urls.foldl (dfStep env B N) {})).chunkedMedia,
    hok, hflat, ?_⟩
  simp only [downloadFiles]
  by_cases hts : ts = true ∧ undownloadedOf env B post.urls ≠ []
  · rw [if_pos (by rw [hundl]; exact hts), if_pos hts]
    simp [hundl]
  · rw [if_neg (by rw [hundl]; exact hts), if_neg hts]
    simp [hfiles, hundl, hwrites]

/-!  ## Claim C1 -/

/-- C1 is false as stated: (a) `chunker` emits an over-budget chunk when an
item longer than the budget arrives while the current chunk is non-empty
(here `"zzzzz"` of length 5 under budget 3); (b) for the media loop of
`download_files`, concatenating the produced chunks gives only the
downloaded items, not the original input, when some url is oversized
(here 3 input urls but 2 chunked items). -/
theorem C1_counterexample :
    (chunker ["ab", "zzzzz"] 5 (some 3) = .ok [["ab"], ["zzzzz"]] ∧
      ¬chunkLenOf ["zzzzz"] ≤ 3) ∧
    ((downloadFiles ⟨fun u => if u = "big" then 10 else 1, fun u => some u⟩ 5 5
        { source_url := "s", urls := ["a", "big", "b"] }
        false).1.chunked_file_paths.flatten.length = 2 ∧
      (["a", "big", "b"] : List String).length = 3) := by
  decide

/-- C1 amended: for any budgets `B` and `N ≥ 1`, (a) provided every item's
length is at most `B`, every chunk `chunker` produces has cumulative length
at most `B` and at most `N` items, and the chunks concatenate to exactly the
input in order; (b) the media-chunking loop of `download_files` produces
chunks of at most `B` cumulative bytes and at most `N` items each,
concatenating to exactly the downloaded items (the input urls minus the
skip-listed and oversized ones) in original order. -/
theorem C1_amended :
    (∀ (seq : List String) (size B : Nat), 1 ≤ size →
      (∀ x ∈ seq, x.length ≤ B) →
      ∃ cs, chunker seq size (some B) = .ok cs ∧
        cs.flatten = seq ∧
        ∀ c ∈ cs, chunkLenOf c ≤ B ∧ c.length ≤ size) ∧
    (∀ (env : DownloadEnv) (B N : Nat) (post : PostData) (ts : Bool), 1 ≤ N →
      ∃ chunks : List (List PostMedia),
        (∀ c ∈ chunks, sumBytes c ≤ B ∧ c.length ≤ N) ∧
        chunks.flatten = downloadedOf env B post.urls ∧
        ((downloadFiles env B N post ts).1.chunked_media = chunks ∨
          (downloadFiles env B N post ts).1.chunked_file_paths =
            chunks.map mediaPaths ++ post.chunked_file_paths)) := by
  constructor
  · intro seq size B hsize hitems
    exact chunker_ok seq size B hsize hitems
  · intro env B N post ts hN
    obtain ⟨chunks, hok, hflat, _, _, _, _, _, hbr⟩ :=
      downloadFiles_spec env B N post ts hN
    refine ⟨chunks, hok, hflat, ?_⟩
    by_cases hts : ts = true ∧ undownloadedOf env B post.urls ≠ []
    · rw [if_pos hts] at hbr
      exact .inl hbr.1
    · rw [if_neg hts] at hbr
      exact .inr hbr.1

/-- Witness for C1 at concrete inputs. -/
theorem C1_witness :
    (∃ cs, chunker ["ab", "cd", "e"] 2 (some 4) = .ok cs ∧
      cs.flatten = ["ab", "cd", "e"] ∧
      ∀ c ∈ cs, chunkLenOf c ≤ 4 ∧ c.length ≤ 2) ∧
    (∃ chunks : List (List PostMedia),
      (∀ c ∈ chunks, sumBytes c ≤ 5 ∧ c.length ≤ 2) ∧
      chunks.flatten =
        downloadedOf ⟨fun _ => 1, fun u => some u⟩ 5
          ({ source_url := "s", urls := ["a", "b", "c"] } : PostData).urls ∧
      ((downloadFiles ⟨fun _ => 1, fun u => some u⟩ 5 2
          { source_url := "s", urls := ["a", "b", "c"] } false).1.chunked_media =
        chunks ∨
        (downloadFiles ⟨fun _ => 1, fun u => some u⟩ 5 2
          { source_url := "s", urls := ["a", "b", "c"] }
          false).1.chunked_file_paths =
          chunks.map mediaPaths ++
            ({ source_url := "s", urls := ["a", "b", "c"] } : PostData).chunked_file_paths)) :=
  ⟨C1_amended.1 ["ab", "cd", "e"] 2 4 (by decide) (by decide),
   C1_amended.2 ⟨fun _ => 1, fun u => some u⟩ 5 2
     { source_url := "s", urls := ["a", "b", "c"] } false (by decide)⟩

/-!  ## Claim C2 -/

/-- The download environment of C2's scenario: 8 downloadable image urls of
1MB each. -/
def envC2 : DownloadEnv := ⟨fun _ => 1048576, fun u => some u⟩

def postC2 : PostData :=
  { source_url := "s", urls := ["u1", "u2", "u3", "u4", "u5", "u6", "u7", "u8"] }

/-- C2 is false as stated: with 8 urls of 1MB, a 5MB byte budget and a 5-item
budget, `download_files` produces chunks of 4 and 4 items, not 5 and 3: the
attachment counter is incremented before the close check and reset to zero
when a chunk is closed (even though the closing item starts the new chunk),
so the first chunk is closed upon the arrival of its 5th item. -/
theorem C2_counterexample :
    (downloadFiles envC2 (5 * 1048576) 5 postC2 false).1.chunked_file_paths.map
        List.length = [4, 4] ∧
    ¬(downloadFiles envC2 (5 * 1048576) 5 postC2 false).1.chunked_file_paths.map
        List.length = [5, 3] := by
  decide

/-- C2 amended: in the 8×1MB / 5MB / 5-item scenario the chunks are
`[4, 4]`: the loop closes the running chunk when adding the next item would
exceed the byte budget, or when its running attachment counter (which counts
the item that re-opens a chunk after a close as zero) reaches the item
budget; all 8 items are downloaded, in order, and nothing is left
undownloaded. -/
theorem C2_amended :
    (downloadFiles envC2 (5 * 1048576) 5 postC2 false).1.chunked_file_paths =
      [[cachePath "u1", cachePath "u2", cachePath "u3", cachePath "u4"],
       [cachePath "u5", cachePath "u6", cachePath "u7", cachePath "u8"]] ∧
    (downloadFiles envC2 (5 * 1048576) 5 postC2 false).1.urls = [] ∧
    (downloadFiles envC2 (5 * 1048576) 5 postC2 false).1.chunked_media = [] := by
  decide

/-!  ## Claim C10 -/

/-- C10: `chunker` raises `ValueError` exactly on an over-budget item meeting
an empty current chunk: (a) an item longer than the budget in first position
raises; (b) if every item fits the budget there is no error; (c) an
over-budget item meeting a non-empty chunk does not raise (it is emitted in
its own over-budget chunk); (d) an over-budget item meeting the empty chunk
left by a count-triggered flush raises; (e) consequently `format_post` on a
`PostData` whose first url is longer than `DISCORD_MAX_MESSAGE = 2000`
propagates the error instead of returning messages. -/
theorem C10_theorem :
    (∀ (x : String) (rest : List String) (size B : Nat),
      0 < B → B < x.length → chunker (x :: rest) size (some B) = .error ()) ∧
    (∀ (seq : List String) (size B : Nat), 1 ≤ size →
      (∀ x ∈ seq, x.length ≤ B) → ∃ cs, chunker seq size (some B) = .ok cs) ∧
    chunker ["ab", "zzzzz"] 5 (some 3) = .ok [["ab"], ["zzzzz"]] ∧
    chunker ["a", "b", "zzzzz"] 2 (some 3) = .error () ∧
    formatPost (fun _ => "")
      { source_url := "s", urls := [⟨List.replicate 2001 'a'⟩] } false =
      .error () := by
  have h1 : ∀ (x : String) (rest : List String) (size B : Nat),
      0 < B → B < x.length → chunker (x :: rest) size (some B) = .error () := by
    intro x rest size B hB hlen
    have hover : chunkerOver (some B) 0 x.length = true := by
      simp [chunkerOver, maxLenTruthy]
      omega
    simp [chunker, chunkerGo, hover]
  refine ⟨h1, ?_, by decide, by decide, ?_⟩
  · intro seq size B hsize hitems
    obtain ⟨cs, hcs, -, -⟩ := chunker_ok seq size B hsize hitems
    exact ⟨cs, hcs⟩
  · have hlen : (⟨List.replicate 2001 'a'⟩ : String).length = 2001 := by
      show (List.replicate 2001 'a').length = 2001
      rw [List.length_replicate]
    have herr := h1 ⟨List.replicate 2001 'a'⟩ [] 5 DISCORD_MAX_MESSAGE
      (by norm_num [DISCORD_MAX_MESSAGE])
      (by rw [hlen]; norm_num [DISCORD_MAX_MESSAGE])
    have hurls : ({ source_url := "s", urls := [⟨List.replicate 2001 'a'⟩] } :
        PostData).urls = [(⟨List.replicate 2001 'a'⟩ : String)] := rfl
    unfold formatPost
    rw [hurls, herr]

/-- Witness for C10 at concrete inputs. -/
theorem C10_witness :
    chunker ["aaa"] 5 (some 2) = .error () ∧
    (∃ cs, chunker ["a", "bb"] 5 (some 2) = .ok cs) :=
  ⟨C10_theorem.1 "aaa" [] 5 2 (by decide) (by decide),
   C10_theorem.2.1 ["a", "bb"] 5 2 (by decide) (by decide)⟩

/-!  ## Claim C3 -/

/-- The `order_by("accessed_at").first()` row is a member of the table and
has the minimal `accessed_at`. -/
lemma cacheOldest_spec (c : List CacheEntry) (hne : c ≠ []) :
    ∃ old, cacheOldest c = some old ∧ old ∈ c ∧
      ∀ e ∈ c, old.accessedAt ≤ e.accessedAt := by
  have go : ∀ (l : List CacheEntry) (b : CacheEntry),
      ∃ r, l.foldl
          (fun best e =>
            match best with
            | none => some e
            | some b => if e.accessedAt < b.accessedAt then some e else some b)
          (some b) = some r ∧
        (r = b ∨ r ∈ l) ∧ r.accessedAt ≤ b.accessedAt ∧
        ∀ e ∈ l, r.accessedAt ≤ e.accessedAt := by
    intro l
    induction l with
    | nil => exact fun b => ⟨b, rfl, .inl rfl, le_rfl, by simp⟩
    | cons e l ih =>
      intro b
      by_cases hlt : e.accessedAt < b.accessedAt
      · obtain ⟨r, hr, hmem, hle, hall⟩ := ih e
        refine ⟨r, by simpa [hlt] using hr, ?_, ?_, ?_⟩
        · rcases hmem with rfl | hmem
          · exact .inr (List.mem_cons_self _ _)
          · exact .inr (List.mem_cons_of_mem _ hmem)
        · omega
        · intro x hx
          rcases List.mem_cons.mp hx with rfl | hx
          · exact hle
          · exact hall x hx
      · obtain ⟨r, hr, hmem, hle, hall⟩ := ih b
        refine ⟨r, by simpa [hlt] using hr, ?_, hle, ?_⟩
        · rcases hmem with rfl | hmem
          · exact .inl rfl
          · exact .inr (List.mem_cons_of_mem _ hmem)
        · intro x hx
          rcases List.mem_cons.mp hx with rfl | hx
          · omega
          · exact hall x hx
  match c, hne with
  | x :: l, _ =>
    obtain ⟨r, hr, hmem, hle, hall⟩ := go l x
    refine ⟨r, ?_, ?_, ?_⟩
    · simpa [cacheOldest] using hr
    · rcases hmem with rfl | hmem
      · exact List.mem_cons_self _ _
      · exact List.mem_cons_of_mem _ hmem
    · intro e he
      rcases List.mem_cons.mp he with rfl | he
      · exact hle
      · exact hall e he

/-- A single `Sns.fetch` insertion keeps the table within `maxSize`. -/
lemma cachePut_length {maxSize : Nat} {c : List CacheEntry} (e : CacheEntry)
    (h : c.length ≤ maxSize) : (cachePut maxSize c e).length ≤ maxSize := by
  unfold cachePut
  by_cases hfull : (c ++ [e]).length > maxSize
  · rw [if_pos hfull]
    obtain ⟨old, hold, hmem, -⟩ := cacheOldest_spec (c ++ [e]) (by simp)
    rw [hold]
    rw [List.length_erase_of_mem hmem]
    simp at hfull ⊢
    omega
  · rw [if_neg hfull]
    omega

/-- C3: starting from at most `MAX_SIZE` entries, any sequence of
`Sns.fetch`-path insertions keeps the cache at or below `MAX_SIZE` (first
conjunct); when an insertion evicts, the evicted entry is one of the rows
present immediately after the insert (so eviction follows insertion) and its
`accessed_at` is minimal among them (second conjunct); when the table is
within capacity after the insert, the put is exactly the insert, with no
eviction (third conjunct). -/
theorem C3_theorem :
    (∀ (maxSize : Nat) (c0 es : List CacheEntry),
      c0.length ≤ maxSize →
      (es.foldl (cachePut maxSize) c0).length ≤ maxSize) ∧
    (∀ (maxSize : Nat) (c : List CacheEntry) (e ev : CacheEntry),
      cachePutEvicted maxSize c e = some ev →
      ev ∈ c ++ [e] ∧ ∀ x ∈ c ++ [e], ev.accessedAt ≤ x.accessedAt) ∧
    (∀ (maxSize : Nat) (c : List CacheEntry) (e : CacheEntry),
      (c ++ [e]).length ≤ maxSize →
      cachePut maxSize c e = c ++ [e] ∧ cachePutEvicted maxSize c e = none) := by
  refine ⟨?_, ?_, ?_⟩
  · intro maxSize c0 es
    induction es generalizing c0 with
    | nil => exact fun h => h
    | cons e es ih =>
      intro h
      rw [List.foldl_cons]
      exact ih _ (cachePut_length e h)
  · intro maxSize c e ev hev
    unfold cachePutEvicted at hev
    by_cases hfull : (c ++ [e]).length > maxSize
    · rw [if_pos hfull] at hev
      obtain ⟨old, hold, hmem, hall⟩ := cacheOldest_spec (c ++ [e]) (by simp)
      rw [hold] at hev
      cases hev
      exact ⟨hmem, hall⟩
    · rw [if_neg hfull] at hev
      cases hev
  · intro maxSize c e h
    constructor
    · unfold cachePut
      rw [if_neg (by omega)]
    · unfold cachePutEvicted
      rw [if_neg (by omega)]

/-- Witness for C3 at concrete inputs (capacity 1; the older of two rows is
the one evicted). -/
theorem C3_witness :
    (([⟨"k2", ⟨"s2", none, none, "", [], []⟩, 7⟩] :
        List CacheEntry).foldl (cachePut 1)
      [⟨"k1", ⟨"s1", none, none, "", [], []⟩, 3⟩]).length ≤ 1 ∧
    (⟨"k1", ⟨"s1", none, none, "", [], []⟩, 3⟩ : CacheEntry) ∈
      ([⟨"k1", ⟨"s1", none, none, "", [], []⟩, 3⟩] : List CacheEntry) ++
        [⟨"k2", ⟨"s2", none, none, "", [], []⟩, 7⟩] ∧
    ∀ x ∈ ([⟨"k1", ⟨"s1", none, none, "", [], []⟩, 3⟩] : List CacheEntry) ++
        [⟨"k2", ⟨"s2", none, none, "", [], []⟩, 7⟩],
      (⟨"k1", ⟨"s1", none, none, "", [], []⟩, 3⟩ : CacheEntry).accessedAt ≤
        x.accessedAt :=
  ⟨C3_theorem.1 1 [⟨"k1", ⟨"s1", none, none, "", [], []⟩, 3⟩]
      [⟨"k2", ⟨"s2", none, none, "", [], []⟩, 7⟩] (by decide),
   (C3_theorem.2.1 1 [⟨"k1", ⟨"s1", none, none, "", [], []⟩, 3⟩]
      ⟨"k2", ⟨"s2", none, none, "", [], []⟩, 7⟩
      ⟨"k1", ⟨"s1", none, none, "", [], []⟩, 3⟩ (by decide)).1,
   (C3_theorem.2.1 1 [⟨"k1", ⟨"s1", none, none, "", [], []⟩, 3⟩]
      ⟨"k2", ⟨"s2", none, none, "", [], []⟩, 7⟩
      ⟨"k1", ⟨"s1", none, none, "", [], []⟩, 3⟩ (by decide)).2⟩

/-!  ## Claim C4 -/

/-- A fetch on a disabled instance: still disabled, fixed message, no
request. -/
lemma igFetch_disabled (r : IgResponse) :
    igFetch true r = ⟨true, { error_message := some igDisabledMsg }, false⟩ := rfl

/-- Once disabled, the instance stays disabled over any further fetches. -/
lemma igRunState_true (rs : List IgResponse) : igRunState true rs = true := by
  induction rs with
  | nil => rfl
  | cons r rs ih =>
    simpa [igRunState, igFetch] using ih

/-- Observing the checkpoint signal leaves the instance disabled, whatever
the state was. -/
lemma igFetch_checkpoint (d : Bool) :
    (igFetch d .checkpointRequired).disabled = true := by
  cases d <;> rfl

/-- C4: on any fetch sequence in which the checkpoint-required signal is
observed, the fetcher is disabled from that call on (one-way, for the rest
of the sequence), and every later fetch returns the fixed disabled message
without making any network request. -/
theorem C4_theorem :
    ∀ rs rs2 : List IgResponse,
      igRunState false (rs ++ [.checkpointRequired]) = true ∧
      (∀ s ∈ igTrace (igRunState false (rs ++ [.checkpointRequired])) rs2,
        s.disabled = true ∧ s.result = { error_message := some igDisabledMsg } ∧
          s.madeRequest = false) ∧
      (∀ rs3, igRunState true rs3 = true) := by
  have htrace : ∀ rs2 : List IgResponse, ∀ s ∈ igTrace true rs2,
      s.disabled = true ∧ s.result = { error_message := some igDisabledMsg } ∧
        s.madeRequest = false := by
    intro rs2
    induction rs2 with
    | nil => simp [igTrace]
    | cons r rs ih =>
      intro s hs
      rw [igTrace] at hs
      rcases List.mem_cons.mp hs with rfl | hs
      · exact ⟨rfl, rfl, rfl⟩
      · exact ih s (by simpa [igFetch_disabled] using hs)
  intro rs rs2
  have hstate : igRunState false (rs ++ [.checkpointRequired]) = true := by
    rw [igRunState, List.foldl_append]
    exact igFetch_checkpoint _
  refine ⟨hstate, ?_, fun rs3 => igRunState_true rs3⟩
  rw [hstate]
  exact htrace rs2

/-!  ## Claim C5 -/

/-- The dedup-append fold of `find_urls` is first-occurrence dedup. -/
lemma foldl_addUrl_eq (xs : List String) :
    ∀ acc : List String, xs.foldl addUrl acc = acc ++ dedupFirstAux acc xs := by
  induction xs with
  | nil => simp [dedupFirstAux]
  | cons x xs ih =>
    intro acc
    rw [List.foldl_cons]
    by_cases hx : x ∈ acc
    · have h1 : addUrl acc x = acc := if_pos hx
      have h2 : dedupFirstAux acc (x :: xs) = dedupFirstAux acc xs := by
        unfold dedupFirstAux
        rw [if_pos hx]
        cases xs <;> rfl
      rw [h1, h2, ih acc]
    · have h1 : addUrl acc x = acc ++ [x] := if_neg hx
      have h2 : dedupFirstAux acc (x :: xs) = x :: dedupFirstAux (acc ++ [x]) xs := by
        unfold dedupFirstAux
        rw [if_neg hx]
        cases xs <;> rfl
      rw [h1, h2, ih (acc ++ [x])]
      simp

/-- First-occurrence dedup never duplicates, and never returns an element of
`seen`. -/
lemma dedupFirstAux_nodup (xs : List String) :
    ∀ seen : List String,
      (dedupFirstAux seen xs).Nodup ∧ ∀ y ∈ dedupFirstAux seen xs, y ∉ seen := by
  induction xs with
  | nil => simp [dedupFirstAux]
  | cons x xs ih =>
    intro seen
    unfold dedupFirstAux
    by_cases hx : x ∈ seen
    · rw [if_pos hx]
      exact ih seen
    · rw [if_neg hx]
      obtain ⟨hnd, hns⟩ := ih (seen ++ [x])
      refine ⟨?_, ?_⟩
      · refine List.nodup_cons.mpr ⟨?_, hnd⟩
        intro hxin
        exact hns x hxin (by simp)
      · intro y hy
        rcases List.mem_cons.mp hy with rfl | hy
        · exact hx
        · intro hys
          exact hns y hy (by simp [hys])

/-- C5 is false as stated: with a short-form url at position 0 and a
canonical url at position 26 in the text, `find_urls` returns the canonical
url first (all `url_pat` matches are collected before any `short_pats`
match), so the output is not ordered by first appearance in the text. -/
theorem C5_counterexample :
    findUrls [⟨26, "https://www.tiktok.com/u/video/123?x=1"⟩]
        [[⟨0, "https://vm.tiktok.com/abc"⟩]] =
      ["https://www.tiktok.com/u/video/123", "https://vm.tiktok.com/abc"] ∧
    specFirstAppearanceUrls [⟨26, "https://www.tiktok.com/u/video/123?x=1"⟩]
        [[⟨0, "https://vm.tiktok.com/abc"⟩]] =
      ["https://vm.tiktok.com/abc", "https://www.tiktok.com/u/video/123"] ∧
    findUrls [⟨26, "https://www.tiktok.com/u/video/123?x=1"⟩]
        [[⟨0, "https://vm.tiktok.com/abc"⟩]] ≠
      specFirstAppearanceUrls [⟨26, "https://www.tiktok.com/u/video/123?x=1"⟩]
        [[⟨0, "https://vm.tiktok.com/abc"⟩]] := by
  refine ⟨by decide, by decide, by decide⟩

/-- C5 amended: `find_urls` strips query strings, deduplicates keeping first
occurrences, and preserves match order within the canonical pattern's matches
and within each short pattern's matches — but it emits all canonical-pattern
matches before any short-pattern match, regardless of their positions in the
text (it is not globally ordered by first appearance); the output never
contains duplicates. -/
theorem C5_amended :
    ∀ (longMatches : List UrlMatch) (shortMatches : List (List UrlMatch)),
      findUrls longMatches shortMatches =
        dedupFirst
          ((longMatches ++ shortMatches.flatten).map fun m => stripQuery m.str) ∧
      (findUrls longMatches shortMatches).Nodup := by
  have hlong : ∀ (ms : List UrlMatch) (acc : List String),
      ms.foldl (fun acc m => addUrl acc (stripQuery m.str)) acc =
        (ms.map fun m => stripQuery m.str).foldl addUrl acc := by
    intro ms
    induction ms with
    | nil => simp
    | cons m ms ih => intro acc; simp [ih]
  have hshorts : ∀ (mss : List (List UrlMatch)) (acc : List String),
      mss.foldl
          (fun acc ms => ms.foldl (fun acc m => addUrl acc (stripQuery m.str)) acc)
          acc =
        (mss.flatten.map fun m => stripQuery m.str).foldl addUrl acc := by
    intro mss
    induction mss with
    | nil => simp
    | cons ms mss ih =>
      intro acc
      rw [List.foldl_cons, List.flatten_cons, List.map_append, List.foldl_append,
        hlong, ih]
  have key : ∀ (longMatches : List UrlMatch) (shortMatches : List (List UrlMatch)),
      findUrls longMatches shortMatches =
        ((longMatches ++ shortMatches.flatten).map fun m => stripQuery m.str).foldl
          addUrl [] := by
    intro longMatches shortMatches
    simp only [findUrls]
    rw [hshorts, hlong, List.map_append, List.foldl_append]
  intro longMatches shortMatches
  constructor
  · rw [key, foldl_addUrl_eq]
    simp [dedupFirst]
  · rw [key, foldl_addUrl_eq]
    simpa using (dedupFirstAux_nodup _ []).1

/-!  ## Claim C6 -/

/-- C6: on the cache-miss fetch path, when the orchestrator is configured
with timestamped urls and some url stays undownloaded, the downloaded media
come back in memory (`chunked_media`), nothing is written to disk and no
cache entry is created; otherwise the media are written to disk as
`chunked_file_paths` and the post is cached under its source url. -/
theorem C6_theorem :
    ∀ (cfg : SnsCfg) (env : DownloadEnv) (B N : Nat) (fr : FetchResult)
      (cache : List CacheEntry) (url : String) (now : Nat) (pd : PostData),
      cfg.cache_files = true →
      cacheGet cache url = none →
      fr.post_data = some pd →
      1 ≤ N →
      ∃ (r : FetchResult) (newCache : List CacheEntry) (writes : List String)
        (pd2 : PostData),
        snsFetch cfg env B N fr cache url now = some (r, newCache, writes) ∧
        r.post_data = some pd2 ∧
        pd2.urls = undownloadedOf env B pd.urls ∧
        (if cfg.timestamped_urls = true ∧ undownloadedOf env B pd.urls ≠ [] then
          pd2.chunked_file_paths = [] ∧
          pd2.chunked_media.flatten = downloadedOf env B pd.urls ∧
          writes = [] ∧
          newCache = cache
        else
          pd2.chunked_media = [] ∧
          pd2.chunked_file_paths.flatten =
            mediaPaths (downloadedOf env B pd.urls) ++
              pd.chunked_file_paths.flatten ∧
          writes = (downloadedOf env B pd.urls).map (fun m => cachePath m.filename) ∧
          newCache = cachePut DISK_CACHE_MAX_SIZE cache ⟨url, pd2.as_dict, now⟩) := by
  intro cfg env B N fr cache url now pd hcf hget hpd hN
  obtain ⟨chunks, hok, hflat, hsu, hpo, hca, hte, hurls, hbr⟩ :=
    downloadFiles_spec env B N pd cfg.timestamped_urls hN
  set dl := downloadFiles env B N pd cfg.timestamped_urls with hdl
  have hsns : snsFetch cfg env B N fr cache url now =
      (if cfg.timestamped_urls ∧ (dl.1.chunked_media ≠ [] ∨ dl.1.urls ≠ []) then
         some ({ fr with post_data := some dl.1 }, cache, dl.2)
       else
         some ({ fr with post_data := some dl.1 },
               cachePut DISK_CACHE_MAX_SIZE cache ⟨url, dl.1.as_dict, now⟩,
               dl.2)) := by
    simp only [snsFetch, hcf, hget, hpd, Bool.not_true, Bool.false_eq_true,
      if_false, ← hdl]
  by_cases hc : cfg.timestamped_urls = true ∧ undownloadedOf env B pd.urls ≠ []
  · rw [if_pos hc] at hbr
    obtain ⟨hcm, hcfp, hw⟩ := hbr
    have hskip : (cfg.timestamped_urls = true ∧
        (dl.1.chunked_media ≠ [] ∨ dl.1.urls ≠ [])) := by
      refine ⟨hc.1, .inr ?_⟩
      rw [hurls]
      exact hc.2
    refine ⟨{ fr with post_data := some dl.1 }, cache, dl.2, dl.1,
      ?_, rfl, hurls, ?_⟩
    · rw [hsns, if_pos hskip]
    · rw [if_pos hc]
      exact ⟨hcfp, by rw [hcm, hflat], hw, rfl⟩
  · rw [if_neg hc] at hbr
    obtain ⟨hcfp, hcm, hw⟩ := hbr
    have hskip : ¬(cfg.timestamped_urls = true ∧
        (dl.1.chunked_media ≠ [] ∨ dl.1.urls ≠ [])) := by
      rw [hcm, hurls]
      intro hcon
      exact hc ⟨hcon.1, by simpa using hcon.2⟩
    refine ⟨{ fr with post_data := some dl.1 },
      cachePut DISK_CACHE_MAX_SIZE cache ⟨url, dl.1.as_dict, now⟩, dl.2, dl.1,
      ?_, rfl, hurls, ?_⟩
    · rw [hsns, if_neg hskip]
    · rw [if_neg hc]
      refine ⟨hcm, ?_, by rw [hw], rfl⟩
      rw [hcfp, ← hflat]
      simp only [List.flatten_append]
      congr 1
      exact (List.map_flatten _ chunks).symm

/-!  ## Claim C7 -/

/-- C7 is violated by the code: `sns_cmd` binds the `FetchResult` returned
by `Sns.fetch` to `post_data` and evaluates `post_data.is_empty`; a
`FetchResult` has no `is_empty` attribute, so the first fetched url raises
`AttributeError` and the whole batch aborts — no per-url messages and no
aggregated error message are produced for any url. -/
theorem C7_theorem :
    ∀ (notFound : String) (fmt : FetchResult → List SnsMessage)
      (r : FetchResult) (rest : List FetchResult),
      snsCmdProcess notFound fmt (r :: rest) = .error ⟨"is_empty"⟩ := by
  intro nf fmt r rest
  rfl

/-- A download environment for the C6 witness: one 3-byte url against a
2-byte budget, so it stays undownloaded. -/
def envW6 : DownloadEnv := ⟨fun _ => 3, fun u => some u⟩

def pdW6 : PostData := { source_url := "s", urls := ["u"] }

/-- Witness for C6: a timestamped fetch with an oversized url creates no
cache entry and writes nothing. -/
theorem C6_witness :
    ∃ (r : FetchResult) (newCache : List CacheEntry) (writes : List String)
      (pd2 : PostData),
      snsFetch ⟨true, true⟩ envW6 2 1 { post_data := some pdW6 } [] "s" 0 =
        some (r, newCache, writes) ∧
      r.post_data = some pd2 ∧
      pd2.urls = undownloadedOf envW6 2 pdW6.urls ∧
      (if true = true ∧ undownloadedOf envW6 2 pdW6.urls ≠ [] then
        pd2.chunked_file_paths = [] ∧
        pd2.chunked_media.flatten = downloadedOf envW6 2 pdW6.urls ∧
        writes = [] ∧
        newCache = []
      else
        pd2.chunked_media = [] ∧
        pd2.chunked_file_paths.flatten =
          mediaPaths (downloadedOf envW6 2 pdW6.urls) ++
            pdW6.chunked_file_paths.flatten ∧
        writes = (downloadedOf envW6 2 pdW6.urls).map (fun m => cachePath m.filename) ∧
        newCache = cachePut DISK_CACHE_MAX_SIZE [] ⟨"s", pd2.as_dict, 0⟩) :=
  C6_theorem ⟨true, true⟩ envW6 2 1 { post_data := some pdW6 } [] "s" 0 pdW6
    rfl rfl rfl (by decide)

/-!  ## Claim C9 -/

def pC9 : PostData := { source_url := "s", chunked_file_paths := [["a"], ["b"]] }

/-- C9 is false as stated: `format_post` pops the first chunk off its
argument's `chunked_file_paths` in place, so the argument changes and a
second call on the same instance returns a different message list. -/
theorem C9_counterexample :
    formatPost (fun _ => "") pC9 false =
      .ok ([⟨"", "", ["a"], []⟩, ⟨"", "", ["b"], []⟩],
           { pC9 with chunked_file_paths := [["b"]] }) ∧
    ({ pC9 with chunked_file_paths := [["b"]] } : PostData) ≠ pC9 ∧
    formatPost (fun _ => "") { pC9 with chunked_file_paths := [["b"]] } false =
      .ok ([⟨"", "", ["b"], []⟩], { pC9 with chunked_file_paths := [] }) ∧
    ([⟨"", "", ["a"], []⟩, ⟨"", "", ["b"], []⟩] : List SnsMessage) ≠
      [⟨"", "", ["b"], []⟩] := by
  refine ⟨by decide, by decide, by decide, by decide⟩

/-- C9 amended: `format_post` never mutates `source_url`, `poster`,
`created_at`, `text` or `urls`, but it does mutate its argument's
`chunked_file_paths` and `chunked_media`: either both are left unchanged, or
both lose their first chunk — and whenever `urls` is empty (so the first
message carries no url text) the first chunk is popped. -/
theorem C9_amended :
    ∀ (fmtDt : DateTime → String) (p : PostData) (wt : Bool)
      (msgs : List SnsMessage) (p2 : PostData),
      formatPost fmtDt p wt = .ok (msgs, p2) →
      p2.urls = p.urls ∧ p2.source_url = p.source_url ∧ p2.poster = p.poster ∧
      p2.created_at = p.created_at ∧ p2.text = p.text ∧
      ((p2.chunked_file_paths = p.chunked_file_paths ∧
        p2.chunked_media = p.chunked_media) ∨
       (p2.chunked_file_paths = p.chunked_file_paths.tail ∧
        p2.chunked_media = p.chunked_media.tail)) ∧
      (p.urls = [] →
        p2.chunked_file_paths = p.chunked_file_paths.tail ∧
        p2.chunked_media = p.chunked_media.tail) := by
  intro fmtDt p wt msgs p2 h
  unfold formatPost at h
  cases hch : chunker p.urls 5 (some DISCORD_MAX_MESSAGE) with
  | error e =>
    rw [hch] at h
    cases h
  | ok cs =>
    rw [hch] at h
    simp only [Except.ok.injEq, Prod.mk.injEq] at h
    obtain ⟨-, hp2⟩ := h
    subst hp2
    cases cs with
    | nil =>
      refine ⟨rfl, rfl, rfl, rfl, rfl, .inr ⟨?_, ?_⟩, fun _ => ⟨?_, ?_⟩⟩ <;> simp
    | cons c rest =>
      by_cases hpop : joinNl c = ""
      · refine ⟨rfl, rfl, rfl, rfl, rfl, .inr ⟨?_, ?_⟩, fun _ => ⟨?_, ?_⟩⟩ <;>
          simp [hpop]
      · refine ⟨rfl, rfl, rfl, rfl, rfl, .inl ⟨?_, ?_⟩, ?_⟩
        · simp [hpop]
        · simp [hpop]
        · intro hurls
          exfalso
          rw [hurls] at hch
          have h0 : chunker ([] : List String) 5 (some DISCORD_MAX_MESSAGE) =
              .ok ([] : List (List String)) := rfl
          rw [h0] at hch
          injection hch with h1
          cases h1

/-!  ## Claim C8 -/

lemma natDigitsRev_eq : ∀ (fuel n : Nat), n ≤ fuel →
    natDigitsRev fuel n = Nat.digits 10 n := by
  intro fuel
  induction fuel with
  | zero =>
    intro n hn
    interval_cases n
    simp [natDigitsRev]
  | succ fuel ih =>
    intro n hn
    rcases Nat.eq_zero_or_pos n with rfl | hpos
    · simp [natDigitsRev]
    · rw [natDigitsRev, if_neg (Nat.pos_iff_ne_zero.mp hpos),
        Nat.digits_def' (by norm_num : (1 : Nat) < 10) hpos,
        ih (n / 10) (by omega)]

lemma natDigits_eq (n : Nat) : natDigits n = Nat.digits 10 n :=
  natDigitsRev_eq n n le_rfl

lemma readKernel_append (ds : List Nat) (d : Nat) :
    readKernel (ds ++ [d]) = readKernel ds * 10 + d := by
  simp [readKernel, List.foldl_append]

lemma readKernel_cons_zero (ds : List Nat) :
    readKernel (0 :: ds) = readKernel ds := by
  simp [readKernel]

lemma readKernel_replicate_zero : ∀ (k : Nat) (ds : List Nat),
    readKernel (List.replicate k 0 ++ ds) = readKernel ds := by
  intro k
  induction k with
  | zero => simp
  | succ k ih =>
    intro ds
    rw [List.replicate_succ, List.cons_append, readKernel_cons_zero, ih]

lemma readKernel_digits (n : Nat) :
    readKernel ((Nat.digits 10 n).reverse) = n := by
  induction n using Nat.strong_induction_on with
  | _ n ih =>
    rcases Nat.eq_zero_or_pos n with rfl | hpos
    · simp [readKernel]
    · rw [Nat.digits_def' (by norm_num : (1 : Nat) < 10) hpos,
        List.reverse_cons, readKernel_append,
        ih (n / 10) (Nat.div_lt_self hpos (by norm_num))]
      omega

lemma charDigit?_digitChar : ∀ d < 10, charDigit? (digitChar d) = some d := by
  decide

lemma mapM_digitChar : ∀ (ds : List Nat), (∀ d ∈ ds, d < 10) →
    (ds.map digitChar).mapM charDigit? = some ds := by
  intro ds
  induction ds with
  | nil => intro _; rfl
  | cons d ds ih =>
    intro h
    have hd : charDigit? (digitChar d) = some d :=
      charDigit?_digitChar d (h d (List.mem_cons_self _ _))
    rw [List.map_cons, List.mapM_cons, hd,
      ih fun x hx => h x (List.mem_cons_of_mem _ hx)]
    rfl

lemma padDigits_lt (w n : Nat) : ∀ d ∈ padDigits w n, d < 10 := by
  intro d hd
  simp only [padDigits, natDigits_eq, List.mem_append, List.mem_replicate,
    List.mem_reverse] at hd
  rcases hd with ⟨-, rfl⟩ | hd
  · norm_num
  · exact Nat.digits_lt_base (by norm_num) hd

lemma readKernel_padDigits (w n : Nat) : readKernel (padDigits w n) = n := by
  rw [padDigits, natDigits_eq]
  rw [readKernel_replicate_zero, readKernel_digits]

lemma readNum?_renderNum (w n : Nat) : readNum? (renderNum w n) = some n := by
  rw [readNum?, renderNum, mapM_digitChar _ (padDigits_lt w n)]
  simp [readKernel_padDigits]

lemma renderNum_length (w n : Nat) (h : n < 10 ^ w) :
    (renderNum w n).length = w := by
  have hlen : (Nat.digits 10 n).length ≤ w := by
    rcases Nat.eq_zero_or_pos n with rfl | hpos
    · simp
    · have := Nat.log_lt_of_lt_pow (Nat.pos_iff_ne_zero.mp hpos) h
      rw [Nat.digits_len 10 n (by norm_num) (Nat.pos_iff_ne_zero.mp hpos)]
      omega
  simp [renderNum, padDigits, natDigits_eq]
  omega

lemma chopNum_render (w n : Nat) (sep : Char) (rest : List Char)
    (h : n < 10 ^ w) :
    chopNum w sep (renderNum w n ++ sep :: rest) = some (n, rest) := by
  rw [chopNum]
  rw [List.take_left' (renderNum_length w n h),
    List.drop_left' (renderNum_length w n h)]
  rw [readNum?_renderNum]
  simp

lemma chopLast_render (w n : Nat) (h : n < 10 ^ w) :
    chopLast w (renderNum w n) = some n := by
  rw [chopLast, if_pos (renderNum_length w n h), readNum?_renderNum]

/-- Parsing inverts formatting: `strptime` inverts `strftime` on every valid datetime (microseconds
included). -/
lemma parseDt_formatDt (d : DateTime) (h : d.Valid) :
    parseDt (formatDt d) = some d := by
  obtain ⟨h1, h2, h3, h4, h5, h6, h7, h8, h9, h10⟩ := h
  have hy : d.year < 10 ^ 4 := by norm_num; omega
  have hmo : d.month < 10 ^ 2 := by norm_num; omega
  have hd : d.day < 10 ^ 2 := by norm_num; omega
  have hh : d.hour < 10 ^ 2 := by norm_num; omega
  have hmi : d.minute < 10 ^ 2 := by norm_num; omega
  have hs : d.second < 10 ^ 2 := by norm_num; omega
  have hus : d.microsecond < 10 ^ 6 := by norm_num; omega
  rw [parseDt]
  have hdata : (formatDt d).data = formatDtChars d := rfl
  rw [hdata, formatDtChars]
  simp only [List.append_assoc, List.cons_append]
  rw [chopNum_render 4 d.year '-' _ hy]
  simp only [Option.bind_eq_bind, Option.some_bind]
  rw [chopNum_render 2 d.month '-' _ hmo]
  simp only [Option.some_bind]
  rw [chopNum_render 2 d.day ' ' _ hd]
  simp only [Option.some_bind]
  rw [chopNum_render 2 d.hour ':' _ hh]
  simp only [Option.some_bind]
  rw [chopNum_render 2 d.minute ':' _ hmi]
  simp only [Option.some_bind]
  rw [chopNum_render 2 d.second '.' _ hs]
  simp only [Option.some_bind]
  rw [chopLast_render 6 d.microsecond hus]
  rfl

/-- C8: for every cache-eligible `PostData` (empty `chunked_media`, valid
datetime fields), `from_dict` inverts `as_dict` on all serialized fields —
including `None` and microsecond-precision `created_at` — and hence a cache
hit in `Sns.fetch` returns exactly the stored post, refreshing only
`accessed_at` and performing no download or disk write. -/
theorem C8_theorem :
    ∀ p : PostData,
      p.chunked_media = [] →
      (∀ d, p.created_at = some d → d.Valid) →
      PostData.from_dict p.as_dict = some p ∧
      (∀ (cfg : SnsCfg) (env : DownloadEnv) (B N : Nat) (fr : FetchResult)
        (cache : List CacheEntry) (url : String) (now : Nat) (e : CacheEntry),
        cfg.cache_files = true → cacheGet cache url = some e →
        e.value = p.as_dict →
        snsFetch cfg env B N fr cache url now =
          some ({ post_data := some p }, cacheTouch cache url now, [])) := by
  intro p hcm hv
  have hround : PostData.from_dict p.as_dict = some p := by
    obtain ⟨su, po, ca, te, us, cf, cm⟩ := p
    have hcm2 : cm = [] := hcm
    subst hcm2
    cases ca with
    | none => rfl
    | some d =>
      have hvd : d.Valid := hv d rfl
      have hne : formatDt d ≠ "" := by
        intro hcon
        have hdata : formatDtChars d = [] := congrArg String.data hcon
        simp [formatDtChars] at hdata
      simp only [PostData.as_dict, PostData.from_dict, createdAtTruthy,
        Option.map_some]
      rw [if_pos (by simpa using hne)]
      simp [parseDt_formatDt d hvd]
  refine ⟨hround, ?_⟩
  intro cfg env B N fr cache url now e hcf hget hval
  have hsns : snsFetch cfg env B N fr cache url now =
      (PostData.from_dict e.value).map fun pd =>
        ({ post_data := some pd }, cacheTouch cache url now, []) := by
    simp only [snsFetch, hcf, Bool.not_true, Bool.false_eq_true, if_false, hget]
  rw [hsns, hval, hround]
  rfl

def pW8 : PostData :=
  { source_url := "u", poster := some "writer",
    created_at := some ⟨2023, 5, 17, 1, 2, 3, 456789⟩, text := "hello",
    urls := ["a"], chunked_file_paths := [["f"]] }

/-- Witness for C8 at a concrete post with a microsecond-precision
timestamp. -/
theorem C8_witness :
    PostData.from_dict (PostData.as_dict pW8) = some pW8 ∧
    snsFetch ⟨true, false⟩ ⟨fun _ => 0, fun _ => none⟩ 1 1 {}
        [⟨"u", PostData.as_dict pW8, 0⟩] "u" 7 =
      some ({ post_data := some pW8 },
            cacheTouch [⟨"u", PostData.as_dict pW8, 0⟩] "u" 7, []) := by
  have hv : ∀ d, pW8.created_at = some d → d.Valid := by
    intro d hd
    rw [show pW8.created_at = some ⟨2023, 5, 17, 1, 2, 3, 456789⟩ from rfl] at hd
    injection hd with h2
    subst h2
    decide
  exact ⟨(C8_theorem pW8 rfl hv).1,
    (C8_theorem pW8 rfl hv).2 ⟨true, false⟩ ⟨fun _ => 0, fun _ => none⟩ 1 1 {}
      [⟨"u", PostData.as_dict pW8, 0⟩] "u" 7 ⟨"u", PostData.as_dict pW8, 0⟩
      rfl (by decide) rfl⟩

def pW9 : PostData := { source_url := "s", chunked_file_paths := [["a"]] }

/-- Witness for C9 at a concrete input (one file chunk, no urls: the chunk
is popped). -/
theorem C9_witness :
    ({ pW9 with chunked_file_paths := ([] : List (List String)) } :
        PostData).urls = pW9.urls ∧
    ({ pW9 with chunked_file_paths := ([] : List (List String)) } :
        PostData).source_url = pW9.source_url ∧
    ({ pW9 with chunked_file_paths := ([] : List (List String)) } :
        PostData).poster = pW9.poster ∧
    ({ pW9 with chunked_file_paths := ([] : List (List String)) } :
        PostData).created_at = pW9.created_at ∧
    ({ pW9 with chunked_file_paths := ([] : List (List String)) } :
        PostData).text = pW9.text ∧
    ((({ pW9 with chunked_file_paths := ([] : List (List String)) } :
        PostData).chunked_file_paths = pW9.chunked_file_paths ∧
      ({ pW9 with chunked_file_paths := ([] : List (List String)) } :
        PostData).chunked_media = pW9.chunked_media) ∨
     (({ pW9 with chunked_file_paths := ([] : List (List String)) } :
        PostData).chunked_file_paths = pW9.chunked_file_paths.tail ∧
      ({ pW9 with chunked_file_paths := ([] : List (List String)) } :
        PostData).chunked_media = pW9.chunked_media.tail)) ∧
    (pW9.urls = [] →
      ({ pW9 with chunked_file_paths := ([] : List (List String)) } :
        PostData).chunked_file_paths = pW9.chunked_file_paths.tail ∧
      ({ pW9 with chunked_file_paths := ([] : List (List String)) } :
        PostData).chunked_media = pW9.chunked_media.tail) :=
  C9_amended (fun _ => "") pW9 false [⟨"", "", ["a"], []⟩]
    { pW9 with chunked_file_paths := [] } (by decide)

end RbbBot
